import Mathlib

/-!
# Verification of the kaggle-bitcoin incremental updater

Shallow embedding of `src/kaggle_bitcoin/kaggle_update_bitcoin.py`:
the gap-detection (`check_missing_days`), the chunk partitioner, the
per-request error downgrade (`fetch_bitstamp_data`), the row
normalization, and the merge / deduplicate / sort pipeline of
`fetch_and_append_missing_data`, together with the overall write
behaviour of the `__main__` driver.

Timestamps after `pd.to_numeric(..., errors="coerce")` are modelled as
`Option Int` (`none` is the NaN missing-value marker).  OHLCV values are
carried as raw strings: the script never interprets them, it only moves
them around.  Pandas' `drop_duplicates(subset="Timestamp", keep="first")`
treats NaN keys as equal to each other, so deduplication compares the
`Option Int` keys with plain equality; `sort_values(by="Timestamp")`
places NaN last (`na_position="last"`), so the sort order makes `none`
the greatest key.  After deduplication all keys are pairwise distinct,
hence the sorted output is unique and an insertion sort models
`sort_values` exactly.
-/

namespace KaggleBitcoin

/-- One row of the dataset, after the `Timestamp` column has been coerced
with `pd.to_numeric(..., errors="coerce")`: a failed parse is `none`
(pandas NaN).  The OHLCV columns are kept as uninterpreted strings. -/
structure Bar where
  Timestamp : Option Int
  Open : String
  High : String
  Low : String
  Close : String
  Volume : String
deriving DecidableEq

/-- Ordering on coerced timestamps used by
`sort_values(by="Timestamp", ascending=True)`: numeric comparison, with
the NaN marker (`none`) placed last, as pandas does. -/
def tsLE (a b : Option Int) : Bool :=
  match a, b with
  | some x, some y => decide (x ≤ y)
  | some _, none => true
  | none, some _ => false
  | none, none => true

/-- The sort relation on `Bar`s: compare the `Timestamp` keys. -/
def barLe (a b : Bar) : Prop := tsLE a.Timestamp b.Timestamp = true

instance : DecidableRel barLe := fun a b => instDecidableEqBool _ _

instance : IsTotal Bar barLe := by
  constructor
  intro a b
  unfold barLe tsLE
  cases a.Timestamp with
  | none => cases b.Timestamp <;> simp
  | some x =>
    cases b.Timestamp with
    | none => simp
    | some y => simpa using Int.le_total x y

instance : IsTrans Bar barLe := by
  constructor
  intro a b c
  unfold barLe tsLE
  cases a.Timestamp with
  | none =>
    cases b.Timestamp with
    | none => cases c.Timestamp <;> simp
    | some y => simp
  | some x =>
    cases b.Timestamp with
    | none =>
      cases c.Timestamp with
      | none => simp
      | some z => simp
    | some y =>
      cases c.Timestamp with
      | none => simp
      | some z =>
        simp only [decide_eq_true_eq]
        exact Int.le_trans

/-- `df.sort_values(by="Timestamp", ascending=True)` (line 183). -/
def sortByTimestamp (l : List Bar) : List Bar := List.insertionSort barLe l

/-- Helper for `drop_duplicates`: walk the rows keeping a row exactly when
its `Timestamp` key was not seen before.  `seen` is the set of keys already
kept.  Pandas `duplicated` treats NaN keys as equal, which plain equality
on `Option Int` reproduces. -/
def dedupSeen (seen : List (Option Int)) : List Bar → List Bar
  | [] => []
  | b :: rest =>
    if b.Timestamp ∈ seen then dedupSeen seen rest
    else b :: dedupSeen (b.Timestamp :: seen) rest

/-- `df.drop_duplicates(subset="Timestamp", keep="first")` (line 179). -/
def drop_duplicates (l : List Bar) : List Bar := dedupSeen [] l

/-- The merge pipeline of `fetch_and_append_missing_data` (lines 175-183):
`pd.concat([df_existing, df_new])`, then
`drop_duplicates(subset="Timestamp", keep="first")`, then
`sort_values(by="Timestamp", ascending=True)`. -/
def mergeData (df_existing df_new : List Bar) : List Bar :=
  sortByTimestamp (drop_duplicates (df_existing ++ df_new))

/-- `chunk_size = 12 * 60 * 60` (line 135): 12 hours in seconds. -/
def chunk_size : Int := 12 * 60 * 60

/-- The chunking loop (lines 133-140): starting from `s`, repeatedly emit
`(current_start, min (current_start + chunk_size) e)` and advance to the
chunk's end, while `current_start < e`. -/
def timeChunks (s e : Int) : List (Int × Int) :=
  if h : s < e then
    (s, min (s + chunk_size) e) :: timeChunks (min (s + chunk_size) e) e
  else []
termination_by (e - s).toNat
decreasing_by
  simp only [chunk_size] at *
  omega

/-- Model of `pd.to_numeric(x, errors="coerce")` on the string cells of a
timestamp column, restricted to integer literals (the only values the
upstream API and the dataset use): an optional minus sign followed by at
least one decimal digit parses to that integer, anything else becomes the
missing-value marker `none` (pandas NaN). -/
def parseNatDigits (l : List Char) : Option Nat :=
  if l = [] then none
  else if l.all Char.isDigit then
    some (l.foldl (fun acc c => acc * 10 + (c.toNat - 48)) 0)
  else none

/-- String-to-number coercion used for `Timestamp` / `timestamp` columns
(lines 69, 112, 153): `pd.to_numeric(..., errors="coerce")`. -/
def to_numeric (str : String) : Option Int :=
  match str.data with
  | '-' :: rest => (parseNatDigits rest).map (fun n => -(n : Int))
  | l => (parseNatDigits l).map (fun n => (n : Int))

/-- One row of the Bitstamp OHLC response, fields in the order the script
relies on when it positionally renames the columns to
`["Timestamp", "Open", "High", "Low", "Close", "Volume"]` (lines 156-163).
All values arrive as strings. -/
structure UpstreamRow where
  timestamp : String
  «open» : String
  high : String
  low : String
  close : String
  volume : String
deriving DecidableEq

/-- Normalization of one fetched row (lines 152-163): coerce the
`timestamp` field with `pd.to_numeric(..., errors="coerce")` and rename
the upstream fields into the dataset's Bar schema. -/
def normalize_row (r : UpstreamRow) : Bar :=
  { Timestamp := to_numeric r.timestamp
    Open := r.«open»
    High := r.high
    Low := r.low
    Close := r.close
    Volume := r.volume }

/-- Outcome of the single `requests.get` call of `fetch_bitstamp_data`
(line 35): either the request itself raises (connection error / timeout,
both `requests.exceptions.RequestException`s), or a response arrives with
a status code and the list extracted by
`response.json().get("data", {}).get("ohlc", [])` (the defaults collapse
a missing key to the empty list). -/
inductive RequestResult where
  | netError : RequestResult
  | timeout : RequestResult
  | response : Nat → List UpstreamRow → RequestResult
deriving DecidableEq

/-- `response.raise_for_status()` (line 36) raises `requests.exceptions.HTTPError`
exactly for client-error (4xx) and server-error (5xx) status codes. -/
def raiseForStatus (status : Nat) : Bool :=
  decide (400 ≤ status) && decide (status < 600)

/-- The `try` body of `fetch_bitstamp_data` (lines 35-37): `requests.get`,
then `raise_for_status`, then JSON extraction; `.error` marks a raised
`RequestException`. -/
def requestAttempt (r : RequestResult) : Except String (List UpstreamRow) :=
  match r with
  | .netError => .error "ConnectionError"
  | .timeout => .error "Timeout"
  | .response status ohlc =>
    if raiseForStatus status then .error "HTTPError" else .ok ohlc

/-- `fetch_bitstamp_data` (lines 11-40): one request attempt; any
`RequestException` is caught, logged, and downgraded to the empty list. -/
def fetch_bitstamp_data (r : RequestResult) : List UpstreamRow :=
  match requestAttempt r with
  | .error _ => []
  | .ok l => l

/-- Model of `pd.date_range(start, end, freq="D")` on whole days (lines
85-90), with calendar days numbered as days since the epoch: the inclusive
list of day numbers from `s` to `e`, empty when `s > e`. -/
def date_range (s e : Int) : List Int :=
  (List.range (e + 1 - s).toNat).map (fun (i : Nat) => s + (i : Int))

/-- `check_missing_days` (lines 56-95) on the coerced `Timestamp` column:
`last_date` is the UTC calendar day (floor of seconds / 86400) of the
maximum valid timestamp (`pd.max` skips NaN); `yesterday = today - 1`
in UTC days; if `last_date < yesterday` return the inclusive day range
`last_date + 1 .. yesterday`, else return the empty list.  If no
timestamp is valid the maximum is NaT and every comparison with it is
false, so the result is likewise empty. -/
def check_missing_days (timestamps : List (Option Int)) (today : Int) : List Int :=
  match (timestamps.filterMap id).max? with
  | none => []
  | some m =>
    if m.fdiv 86400 < today - 1 then date_range (m.fdiv 86400 + 1) (today - 1)
    else []

/-- The per-day part of `fetch_and_append_missing_data` (lines 115-149),
with the network abstracted as an oracle from a chunk `(start, end)` to
the outcome of its one request: chunk `[day*86400, day*86400+86400)`
with `timeChunks`, fetch each chunk in order, concatenate the results
into `day_data`. -/
def fetch_day (oracle : Int × Int → RequestResult) (day : Int) : List UpstreamRow :=
  ((timeChunks (day * 86400) (day * 86400 + 86400)).map
    (fun c => fetch_bitstamp_data (oracle c))).flatten

/-- `fetch_and_append_missing_data` (lines 99-190): an empty `day_data`
contributes nothing (`if day_data:`, line 151), otherwise the day's rows
are normalized and appended to `all_new_data`; if any new data exists the
merge pipeline runs, else the coerced existing frame is written back as
is (line 190).  The returned list is what `to_csv` writes. -/
def fetch_and_append_missing_data (oracle : Int × Int → RequestResult)
    (missing_days : List Int) (df_existing : List Bar) : List Bar :=
  let all_new_data := missing_days.filterMap (fun day =>
    if (fetch_day oracle day).isEmpty then none
    else some ((fetch_day oracle day).map normalize_row))
  if all_new_data.isEmpty then df_existing
  else mergeData df_existing all_new_data.flatten

/-- Observable outcome of one run of the `__main__` driver: the dataset
written back (`none` when no `to_csv` call happens) and the number of
upstream requests issued. -/
structure RunResult where
  written : Option (List Bar)
  requests : Nat
deriving DecidableEq

/-- Number of `fetch_bitstamp_data` calls a run with these missing days
performs: one per chunk per day. -/
def requestsFor (missing_days : List Int) : Nat :=
  (missing_days.map
    (fun day => (timeChunks (day * 86400) (day * 86400 + 86400)).length)).sum

/-- The `__main__` driver (lines 217-228) after the dataset download:
compute `missing_days`, and only when `len(missing_days) > 0` call
`fetch_and_append_missing_data` (which always writes); otherwise print
"No missing data to fetch." and write nothing. -/
def main_run (oracle : Int × Int → RequestResult) (df_existing : List Bar)
    (missing_days : List Int) : RunResult :=
  if missing_days.length > 0 then
    { written := some (fetch_and_append_missing_data oracle missing_days df_existing)
      requests := requestsFor missing_days }
  else { written := none, requests := 0 }

/-!
## Lemmas about deduplication and sorting
-/

/-- Restricted to one key `k`, deduplication keeps exactly the first row
with that key — none if `k` was already seen. -/
theorem dedupSeen_filter (k : Option Int) :
    ∀ (seen : List (Option Int)) (l : List Bar),
      (dedupSeen seen l).filter (fun b => decide (b.Timestamp = k)) =
        if k ∈ seen then []
        else (l.filter (fun b => decide (b.Timestamp = k))).take 1 := by
  intro seen l
  induction l generalizing seen with
  | nil => simp [dedupSeen]
  | cons b rest ih =>
    rw [dedupSeen]
    by_cases hb : b.Timestamp ∈ seen
    · rw [if_pos hb, ih seen]
      by_cases hk : k ∈ seen
      · rw [if_pos hk, if_pos hk]
      · have hne : ¬ (b.Timestamp = k) := fun he => hk (he ▸ hb)
        rw [if_neg hk, if_neg hk, List.filter_cons_of_neg (by simpa using hne)]
    · rw [if_neg hb]
      by_cases hbk : b.Timestamp = k
      · have hk : k ∉ seen := fun hks => hb (hbk ▸ hks)
        rw [List.filter_cons_of_pos (by simpa using hbk), ih (b.Timestamp :: seen),
          if_pos (List.mem_cons.mpr (Or.inl hbk.symm)), if_neg hk,
          List.filter_cons_of_pos (by simpa using hbk), List.take_succ_cons,
          List.take_zero]
      · rw [List.filter_cons_of_neg (by simpa using hbk), ih (b.Timestamp :: seen)]
        by_cases hk : k ∈ seen
        · rw [if_pos (List.mem_cons_of_mem _ hk), if_pos hk]
        · have hkc : k ∉ b.Timestamp :: seen := by
            intro hmem
            rcases List.mem_cons.mp hmem with he | hs
            · exact hbk he.symm
            · exact hk hs
          rw [if_neg hkc, if_neg hk, List.filter_cons_of_neg (by simpa using hbk)]

/-- A key appears among the deduplicated rows iff it appears in the input
and was not already seen. -/
theorem dedupSeen_key_mem (k : Option Int) :
    ∀ (seen : List (Option Int)) (l : List Bar),
      k ∈ (dedupSeen seen l).map Bar.Timestamp ↔
        (k ∈ l.map Bar.Timestamp ∧ k ∉ seen) := by
  intro seen l
  induction l generalizing seen with
  | nil => simp [dedupSeen]
  | cons b rest ih =>
    rw [dedupSeen]
    by_cases hb : b.Timestamp ∈ seen
    · rw [if_pos hb, ih seen]
      simp only [List.map_cons, List.mem_cons]
      constructor
      · rintro ⟨h1, h2⟩
        exact ⟨Or.inr h1, h2⟩
      · rintro ⟨h1 | h1, h2⟩
        · exact absurd (h1 ▸ hb) h2
        · exact ⟨h1, h2⟩
    · rw [if_neg hb]
      simp only [List.map_cons, List.mem_cons]
      rw [ih (b.Timestamp :: seen)]
      constructor
      · rintro (he | ⟨h1, h2⟩)
        · exact ⟨Or.inl he, he ▸ hb⟩
        · exact ⟨Or.inr h1, fun hk => h2 (List.mem_cons_of_mem _ hk)⟩
      · rintro ⟨h1 | h1, h2⟩
        · exact Or.inl h1
        · by_cases he : k = b.Timestamp
          · exact Or.inl he
          · refine Or.inr ⟨h1, fun hmem => ?_⟩
            rcases List.mem_cons.mp hmem with he' | hs
            · exact he he'
            · exact h2 hs

/-- The keys of the deduplicated rows are pairwise distinct and disjoint
from the already-seen keys. -/
theorem dedupSeen_keys_nodup :
    ∀ (seen : List (Option Int)) (l : List Bar),
      ((dedupSeen seen l).map Bar.Timestamp).Nodup ∧
        ∀ k ∈ (dedupSeen seen l).map Bar.Timestamp, k ∉ seen := by
  intro seen l
  induction l generalizing seen with
  | nil => simp [dedupSeen]
  | cons b rest ih =>
    rw [dedupSeen]
    by_cases hb : b.Timestamp ∈ seen
    · rw [if_pos hb]
      exact ih seen
    · rw [if_neg hb]
      obtain ⟨hnd, hdisj⟩ := ih (b.Timestamp :: seen)
      refine ⟨List.nodup_cons.mpr ⟨fun hmem => ?_, hnd⟩, ?_⟩
      · exact (hdisj _ hmem) (List.mem_cons_self _ _)
      · intro k hk
        rw [List.map_cons] at hk
        rcases List.mem_cons.mp hk with he | hm
        · exact he ▸ hb
        · exact fun hks => (hdisj k hm) (List.mem_cons_of_mem _ hks)

/-- Deduplicating rows whose keys are already pairwise distinct and unseen
changes nothing. -/
theorem dedupSeen_eq_self :
    ∀ (seen : List (Option Int)) (l : List Bar),
      (l.map Bar.Timestamp).Nodup →
      (∀ k ∈ l.map Bar.Timestamp, k ∉ seen) →
      dedupSeen seen l = l := by
  intro seen l
  induction l generalizing seen with
  | nil => intro _ _; rfl
  | cons b rest ih =>
    intro hnd hdisj
    rw [List.map_cons] at hnd
    obtain ⟨hhd, htl⟩ := List.nodup_cons.mp hnd
    rw [dedupSeen, if_neg (hdisj b.Timestamp (by rw [List.map_cons]; exact List.mem_cons_self _ _))]
    congr 1
    apply ih
    · exact htl
    · intro k hk
      have hk' : k ∈ (b :: rest).map Bar.Timestamp := by
        rw [List.map_cons]
        exact List.mem_cons_of_mem _ hk
      intro hmem
      rcases List.mem_cons.mp hmem with he | hm
      · exact hhd (he ▸ hk)
      · exact hdisj k hk' hm

/-- Appending rows whose keys were all seen or already occur in the first
part does not change the deduplication result. -/
theorem dedupSeen_append_absorb :
    ∀ (seen : List (Option Int)) (l1 l2 : List Bar),
      (∀ b ∈ l2, b.Timestamp ∈ seen ∨ b.Timestamp ∈ l1.map Bar.Timestamp) →
      dedupSeen seen (l1 ++ l2) = dedupSeen seen l1 := by
  intro seen l1 l2
  induction l1 generalizing seen with
  | nil =>
    intro habs
    simp only [List.nil_append, dedupSeen]
    induction l2 generalizing seen with
    | nil => simp [dedupSeen]
    | cons b rest ih2 =>
      rcases habs b (by simp) with hs | hm
      · rw [dedupSeen, if_pos hs]
        exact ih2 seen (fun c hc => by simpa using habs c (by simp [hc]))
      · simp at hm
  | cons b rest ih =>
    intro habs
    rw [List.cons_append, dedupSeen, dedupSeen]
    by_cases hb : b.Timestamp ∈ seen
    · rw [if_pos hb, if_pos hb]
      apply ih
      intro c hc
      rcases habs c hc with hs | hm
      · exact Or.inl hs
      · rw [List.map_cons] at hm
        rcases List.mem_cons.mp hm with he | hm'
        · exact Or.inl (he ▸ hb)
        · exact Or.inr hm'
    · rw [if_neg hb, if_neg hb]
      congr 1
      apply ih
      intro c hc
      rcases habs c hc with hs | hm
      · exact Or.inl (List.mem_cons_of_mem _ hs)
      · rw [List.map_cons] at hm
        rcases List.mem_cons.mp hm with he | hm'
        · exact Or.inl (by rw [he]; exact List.mem_cons_self _ _)
        · exact Or.inr hm'

/-- Sorting permutes the rows. -/
theorem sortByTimestamp_perm (l : List Bar) : (sortByTimestamp l).Perm l :=
  List.perm_insertionSort barLe l

/-- The sort output is sorted for the pandas key order. -/
theorem sortByTimestamp_sorted (l : List Bar) :
    List.Sorted barLe (sortByTimestamp l) :=
  List.sorted_insertionSort barLe l

/-- Sorting an already sorted list changes nothing. -/
theorem sortByTimestamp_eq_self {l : List Bar} (h : List.Sorted barLe l) :
    sortByTimestamp l = l :=
  List.Sorted.insertionSort_eq h

/-- Restricted to one key, the merge output keeps exactly the first
occurrence from `df_existing ++ df_new`. -/
theorem mergeData_filter_key (df_existing df_new : List Bar) (k : Option Int) :
    (mergeData df_existing df_new).filter (fun x => decide (x.Timestamp = k)) =
      ((df_existing ++ df_new).filter (fun x => decide (x.Timestamp = k))).take 1 := by
  have hded : (drop_duplicates (df_existing ++ df_new)).filter
      (fun x => decide (x.Timestamp = k)) =
      ((df_existing ++ df_new).filter (fun x => decide (x.Timestamp = k))).take 1 := by
    unfold drop_duplicates
    rw [dedupSeen_filter k [] _, if_neg (List.not_mem_nil _)]
  have hperm := List.Perm.filter (fun x => decide (x.Timestamp = k))
    (sortByTimestamp_perm (drop_duplicates (df_existing ++ df_new)))
  rw [hded] at hperm
  show (sortByTimestamp (drop_duplicates (df_existing ++ df_new))).filter
    (fun x => decide (x.Timestamp = k)) = _
  rcases ht : ((df_existing ++ df_new).filter
      (fun x => decide (x.Timestamp = k))).take 1 with _ | ⟨c, tl⟩
  · rw [ht] at hperm
    rw [ht]
    exact List.Perm.eq_nil hperm
  · have htl : tl = [] := by
      have hlen := congrArg List.length ht
      rw [List.length_take] at hlen
      cases tl with
      | nil => rfl
      | cons d tl' => simp at hlen; omega
    subst htl
    rw [ht] at hperm
    rw [ht]
    exact List.perm_singleton.mp hperm

/-!
## Lemmas about the chunk partitioner
-/

/-- The loop body does not run when `current_start ≥ end_timestamp`. -/
theorem timeChunks_of_not_lt (s e : Int) (h : ¬ s < e) : timeChunks s e = [] := by
  rw [timeChunks]
  exact dif_neg h

/-- One iteration of the chunking loop. -/
theorem timeChunks_of_lt (s e : Int) (h : s < e) :
    timeChunks s e =
      (s, min (s + chunk_size) e) :: timeChunks (min (s + chunk_size) e) e := by
  rw [timeChunks]
  exact dif_pos h

/-- `getLast?` of a cons with nonempty tail ignores the head. -/
theorem getLast?_cons_of_ne_nil {α : Type} (a : α) {l : List α} (h : l ≠ []) :
    (a :: l).getLast? = l.getLast? := by
  cases l with
  | nil => exact absurd rfl h
  | cons b t => exact List.getLast?_cons_cons

/-- The last chunk ends exactly at the range's end. -/
theorem timeChunks_getLast (s e : Int) :
    s < e → (timeChunks s e).getLast?.map Prod.snd = some e := by
  induction s, e using timeChunks.induct with
  | case1 s e h ih =>
    intro _
    rw [timeChunks_of_lt s e h]
    by_cases hm : min (s + chunk_size) e < e
    · have htail : timeChunks (min (s + chunk_size) e) e ≠ [] := by
        rw [timeChunks_of_lt _ _ hm]
        exact List.cons_ne_nil _ _
      rw [getLast?_cons_of_ne_nil _ htail]
      exact ih hm
    · have hmin : min (s + chunk_size) e = e := by omega
      rw [timeChunks_of_not_lt _ _ (by omega), hmin]
      rfl
  | case2 s e h =>
    intro hlt
    exact absurd hlt h

/-- Adjacent chunks share their boundary: each chunk starts where the
previous one ended. -/
theorem timeChunks_chain (s e : Int) :
    List.Chain' (fun a b : Int × Int => a.2 = b.1) (timeChunks s e) := by
  induction s, e using timeChunks.induct with
  | case1 s e h ih =>
    rw [timeChunks_of_lt s e h]
    by_cases hm : min (s + chunk_size) e < e
    · rw [timeChunks_of_lt _ _ hm]
      rw [timeChunks_of_lt _ _ hm] at ih
      exact List.chain'_cons.mpr ⟨rfl, ih⟩
    · rw [timeChunks_of_not_lt _ _ hm]
      exact List.chain'_singleton _
  | case2 s e h =>
    rw [timeChunks_of_not_lt s e h]
    exact List.chain'_nil

/-- Every chunk is nonempty and spans at most `chunk_size` seconds. -/
theorem timeChunks_span (s e : Int) :
    ∀ c ∈ timeChunks s e, 0 < c.2 - c.1 ∧ c.2 - c.1 ≤ chunk_size := by
  induction s, e using timeChunks.induct with
  | case1 s e h ih =>
    rw [timeChunks_of_lt s e h]
    intro c hc
    rcases List.mem_cons.mp hc with he | hm
    · subst he
      simp only [chunk_size] at *
      omega
    · exact ih c hm
  | case2 s e h =>
    rw [timeChunks_of_not_lt s e h]
    intro c hc
    exact absurd hc (List.not_mem_nil c)

/-- Every chunk except possibly the last spans exactly `chunk_size`. -/
theorem timeChunks_dropLast_span (s e : Int) :
    ∀ c ∈ (timeChunks s e).dropLast, c.2 - c.1 = chunk_size := by
  induction s, e using timeChunks.induct with
  | case1 s e h ih =>
    rw [timeChunks_of_lt s e h]
    by_cases hm : min (s + chunk_size) e < e
    · have hmin : min (s + chunk_size) e = s + chunk_size := by omega
      rw [timeChunks_of_lt _ _ hm]
      rw [timeChunks_of_lt _ _ hm] at ih
      intro c hc
      rw [List.dropLast_cons₂] at hc
      rcases List.mem_cons.mp hc with he | hmem
      · subst he
        simp [hmin]
      · exact ih c hmem
    · rw [timeChunks_of_not_lt _ _ hm]
      intro c hc
      exact absurd hc (List.not_mem_nil c)
  | case2 s e h =>
    rw [timeChunks_of_not_lt s e h]
    intro c hc
    exact absurd hc (List.not_mem_nil c)

/-- A whole-day range produces exactly the two 12-hour chunks. -/
theorem timeChunks_whole_day (T : Int) :
    timeChunks T (T + 86400) = [(T, T + 43200), (T + 43200, T + 86400)] := by
  have h1 : min (T + chunk_size) (T + 86400) = T + 43200 := by
    simp only [chunk_size]
    omega
  have h2 : min (T + 43200 + chunk_size) (T + 86400) = T + 86400 := by
    simp only [chunk_size]
    omega
  rw [timeChunks_of_lt T (T + 86400) (by omega), h1,
    timeChunks_of_lt (T + 43200) (T + 86400) (by omega), h2,
    timeChunks_of_not_lt (T + 86400) (T + 86400) (by omega)]

/-!
## Claim theorems
-/

/-- C1.  Merge semantics: the merged output is the concatenation
`df_existing ++ df_new` deduplicated keeping the first occurrence per
`Timestamp` key and then sorted by `Timestamp`; consequently any existing
Bar whose timestamp is unique within the existing dataset appears exactly
once and unchanged in the output, and on a timestamp conflict the
existing Bar (concatenated first) wins over a freshly fetched one. -/
theorem merge_existing_bar_preserved (df_existing df_new : List Bar) (b : Bar)
    (hb : df_existing.filter (fun x => decide (x.Timestamp = b.Timestamp)) = [b]) :
    mergeData df_existing df_new =
      sortByTimestamp (drop_duplicates (df_existing ++ df_new)) ∧
    (mergeData df_existing df_new).filter
      (fun x => decide (x.Timestamp = b.Timestamp)) = [b] := by
  refine ⟨rfl, ?_⟩
  rw [mergeData_filter_key df_existing df_new b.Timestamp, List.filter_append, hb]
  rfl

/-- Witness for C1: a fetched row with the same timestamp (`5`) but
different OHLCV values does not displace the existing Bar. -/
theorem merge_existing_bar_preserved_witness :
    (mergeData
        [⟨some 5, "eo", "eh", "el", "ec", "ev"⟩]
        [⟨some 5, "no", "nh", "nl", "nc", "nv"⟩,
          ⟨some 6, "o", "h", "l", "c", "v"⟩]).filter
      (fun x => decide (x.Timestamp = (⟨some 5, "eo", "eh", "el", "ec", "ev"⟩ : Bar).Timestamp)) =
      [⟨some 5, "eo", "eh", "el", "ec", "ev"⟩] :=
  (merge_existing_bar_preserved
    [⟨some 5, "eo", "eh", "el", "ec", "ev"⟩]
    [⟨some 5, "no", "nh", "nl", "nc", "nv"⟩, ⟨some 6, "o", "h", "l", "c", "v"⟩]
    ⟨some 5, "eo", "eh", "el", "ec", "ev"⟩ (by decide)).2

/-- C4.  Final-dataset invariant: every dataset produced by the merge step
is sorted by non-decreasing `Timestamp` in storage order and contains
exactly one Bar per distinct `Timestamp` key (the key list has no
duplicates). -/
theorem merge_output_sorted_nodup (df_existing df_new : List Bar) :
    List.Sorted barLe (mergeData df_existing df_new) ∧
      ((mergeData df_existing df_new).map Bar.Timestamp).Nodup := by
  constructor
  · exact sortByTimestamp_sorted _
  · have h1 := (dedupSeen_keys_nodup [] (df_existing ++ df_new)).1
    have hperm := (sortByTimestamp_perm (drop_duplicates (df_existing ++ df_new))).map
      Bar.Timestamp
    exact hperm.nodup_iff.mpr h1

/-- C5.  Idempotence of merge: merging the same fetched rows into an
already merged dataset changes nothing. -/
theorem merge_idempotent (df_existing df_new : List Bar) :
    mergeData (mergeData df_existing df_new) df_new = mergeData df_existing df_new := by
  have hperm : (sortByTimestamp (drop_duplicates (df_existing ++ df_new))).Perm
      (drop_duplicates (df_existing ++ df_new)) := sortByTimestamp_perm _
  have hkeys : ∀ b ∈ df_new, b.Timestamp ∈
      (sortByTimestamp (drop_duplicates (df_existing ++ df_new))).map Bar.Timestamp := by
    intro b hbmem
    have h1 : b.Timestamp ∈ (df_existing ++ df_new).map Bar.Timestamp := by
      rw [List.map_append]
      exact List.mem_append_right _ (List.mem_map_of_mem _ hbmem)
    have h2 : b.Timestamp ∈ (drop_duplicates (df_existing ++ df_new)).map Bar.Timestamp :=
      (dedupSeen_key_mem b.Timestamp [] _).mpr ⟨h1, List.not_mem_nil _⟩
    exact ((hperm.map Bar.Timestamp).mem_iff).mpr h2
  have habsorb := dedupSeen_append_absorb []
    (sortByTimestamp (drop_duplicates (df_existing ++ df_new))) df_new
    (fun b hb => Or.inr (hkeys b hb))
  have hnodupM : ((sortByTimestamp (drop_duplicates (df_existing ++ df_new))).map
      Bar.Timestamp).Nodup :=
    ((hperm.map Bar.Timestamp).nodup_iff).mpr (dedupSeen_keys_nodup [] _).1
  have hself := dedupSeen_eq_self []
    (sortByTimestamp (drop_duplicates (df_existing ++ df_new))) hnodupM
    (fun k _ => List.not_mem_nil k)
  show sortByTimestamp (dedupSeen []
      (sortByTimestamp (drop_duplicates (df_existing ++ df_new)) ++ df_new)) =
    sortByTimestamp (drop_duplicates (df_existing ++ df_new))
  rw [habsorb, hself]
  exact sortByTimestamp_eq_self (sortByTimestamp_sorted _)

/-- C10.  Rows whose `Timestamp` failed numeric coercion all carry the
same missing-value marker, and deduplication treats those markers as
equal: when the existing dataset holds two or more unparsable-timestamp
rows, only the first survives the merge. -/
theorem merge_nan_rows_collapse (df_existing df_new : List Bar) (b b' : Bar)
    (rest : List Bar)
    (h : df_existing.filter (fun x => decide (x.Timestamp = none)) = b :: b' :: rest) :
    (mergeData df_existing df_new).filter
      (fun x => decide (x.Timestamp = none)) = [b] := by
  rw [mergeData_filter_key df_existing df_new none, List.filter_append, h]
  rfl

/-- C2.  Partition completeness: for `s < e` the chunking loop produces a
nonempty chunk list whose first chunk starts at `s`, whose last chunk
ends exactly at `e`, in which each chunk starts where the previous one
ended (no gaps, no overlaps), every chunk is nonempty with span at most
the configured maximum `chunk_size = 43200` seconds, and every chunk
except possibly the last spans exactly `chunk_size`. -/
theorem timeChunks_partition (s e : Int) (h : s < e) :
    chunk_size = 43200 ∧
    timeChunks s e ≠ [] ∧
    (timeChunks s e).head?.map Prod.fst = some s ∧
    (timeChunks s e).getLast?.map Prod.snd = some e ∧
    List.Chain' (fun a b : Int × Int => a.2 = b.1) (timeChunks s e) ∧
    (∀ c ∈ timeChunks s e, 0 < c.2 - c.1 ∧ c.2 - c.1 ≤ chunk_size) ∧
    (∀ c ∈ (timeChunks s e).dropLast, c.2 - c.1 = chunk_size) := by
  refine ⟨rfl, ?_, ?_, timeChunks_getLast s e h, timeChunks_chain s e,
    timeChunks_span s e, timeChunks_dropLast_span s e⟩
  · rw [timeChunks_of_lt s e h]
    exact List.cons_ne_nil _ _
  · rw [timeChunks_of_lt s e h]
    rfl

/-- Witness for C2 at the concrete range `[0, 100000)`. -/
theorem timeChunks_partition_witness :
    (0 : Int) < 100000 ∧
    (chunk_size = 43200 ∧
      timeChunks 0 100000 ≠ [] ∧
      (timeChunks 0 100000).head?.map Prod.fst = some 0 ∧
      (timeChunks 0 100000).getLast?.map Prod.snd = some 100000 ∧
      List.Chain' (fun a b : Int × Int => a.2 = b.1) (timeChunks 0 100000) ∧
      (∀ c ∈ timeChunks 0 100000, 0 < c.2 - c.1 ∧ c.2 - c.1 ≤ chunk_size) ∧
      (∀ c ∈ (timeChunks 0 100000).dropLast, c.2 - c.1 = chunk_size)) :=
  ⟨by decide, timeChunks_partition 0 100000 (by decide)⟩

/-- C8 as stated is false on the code: the script chunks a whole day with
a 12-hour (43200 s) chunk size, not a 1000-minute (60000 s) one, so the
day starting at `T = 0` is split at `43200`, not at `60000`. -/
theorem timeChunks_day_not_60000 :
    timeChunks 0 86400 ≠ [(0, 60000), (60000, 86400)] := by
  have heval : timeChunks 0 86400 = [(0, 43200), (43200, 86400)] := by
    have := timeChunks_whole_day 0
    norm_num at this
    exact this
  rw [heval]
  intro hcontra
  have := congrArg (fun l => List.head? l) hcontra
  simp at this

/-- C8 (amended).  Scenario B chunk boundaries: for a missing range
spanning exactly 24 hours from `T` (cutoff `T + 86400`), the partitioner
produces exactly 2 chunks `[T, T+43200)` and `[T+43200, T+86400)`, using
the code's 12-hour (43200-second) chunk size. -/
theorem timeChunks_day_two_chunks (T : Int) :
    timeChunks T (T + 86400) = [(T, T + 43200), (T + 43200, T + 86400)] :=
  timeChunks_whole_day T

/-- Membership in the modelled `pd.date_range`: exactly the days between
the bounds, inclusive. -/
theorem mem_date_range (s e d : Int) : d ∈ date_range s e ↔ s ≤ d ∧ d ≤ e := by
  unfold date_range
  constructor
  · intro hmem
    obtain ⟨i, hi, hf⟩ := List.mem_map.mp hmem
    have hlt := List.mem_range.mp hi
    omega
  · rintro ⟨h1, h2⟩
    exact List.mem_map.mpr
      ⟨(d - s).toNat, List.mem_range.mpr (by omega), by omega⟩

/-- The modelled `pd.date_range` is nonempty when the bounds are ordered. -/
theorem date_range_ne_nil (s e : Int) (h : s ≤ e) : date_range s e ≠ [] := by
  intro hc
  have hmem := (mem_date_range s e s).mpr ⟨le_refl s, h⟩
  rw [hc] at hmem
  exact List.not_mem_nil _ hmem

/-- C3.  Whole-day gap detection: for a dataset with at least one valid
numeric timestamp (maximum `m`), with `last_date = m.fdiv 86400` the UTC
calendar day of the maximum timestamp and `yesterday = today - 1`,
`check_missing_days` returns a non-empty result exactly when
`last_date < yesterday`, and the result is precisely the inclusive
day-aligned range from the day after `last_date` through `yesterday`;
otherwise the result is the empty list (dataset current, not an error). -/
theorem check_missing_days_gap (ts : List (Option Int)) (today m : Int)
    (hm : (ts.filterMap id).max? = some m) :
    (check_missing_days ts today ≠ [] ↔ m.fdiv 86400 < today - 1) ∧
    ∀ d : Int, d ∈ check_missing_days ts today ↔
      m.fdiv 86400 + 1 ≤ d ∧ d ≤ today - 1 := by
  have heq : check_missing_days ts today =
      (if m.fdiv 86400 < today - 1 then date_range (m.fdiv 86400 + 1) (today - 1)
        else []) := by
    unfold check_missing_days
    rw [hm]
  rw [heq]
  by_cases hlt : m.fdiv 86400 < today - 1
  · rw [if_pos hlt]
    refine ⟨iff_of_true (date_range_ne_nil _ _ (by omega)) hlt, ?_⟩
    intro d
    exact mem_date_range _ _ d
  · rw [if_neg hlt]
    refine ⟨iff_of_false (fun hc => hc rfl) hlt, ?_⟩
    intro d
    exact iff_of_false (List.not_mem_nil d) (by omega)

/-- Witness for C3: a dataset whose maximum valid timestamp falls on day
1 (86400 s), checked against `today = 5`. -/
theorem check_missing_days_gap_witness :
    (([some 86400, none, some 0] : List (Option Int)).filterMap id).max? =
        some 86400 ∧
    ((check_missing_days [some 86400, none, some 0] 5 ≠ [] ↔
        (86400 : Int).fdiv 86400 < 5 - 1) ∧
      ∀ d : Int, d ∈ check_missing_days [some 86400, none, some 0] 5 ↔
        (86400 : Int).fdiv 86400 + 1 ≤ d ∧ d ≤ 5 - 1) :=
  ⟨by decide, check_missing_days_gap [some 86400, none, some 0] 5 86400 (by decide)⟩

/-- An outcome of the single request that makes the `try` body of
`fetch_bitstamp_data` raise a `RequestException`: a connection error, a
timeout, or a response whose status makes `raise_for_status` raise
(4xx / 5xx). -/
def isErrorOutcome : RequestResult → Bool
  | .netError => true
  | .timeout => true
  | .response status _ => raiseForStatus status

/-- C6 (amended).  Error downgrade: when the chunk request raises a
network error, times out, or returns a 4xx/5xx error status, the
exception is caught inside `fetch_bitstamp_data` (the `try` body ends in
`.error`, never propagating) and the function returns the empty row list;
the single request outcome is consulted exactly once, so nothing is
retried.  (As stated the claim is false: a non-2xx status outside
4xx/5xx, such as 304, passes `raise_for_status` and its body is
returned.) -/
theorem fetch_error_downgrade (r : RequestResult) (h : isErrorOutcome r = true) :
    (∃ msg, requestAttempt r = Except.error msg) ∧ fetch_bitstamp_data r = [] := by
  cases r with
  | netError => exact ⟨⟨"ConnectionError", rfl⟩, rfl⟩
  | timeout => exact ⟨⟨"Timeout", rfl⟩, rfl⟩
  | response status ohlc =>
    have hb : raiseForStatus status = true := h
    constructor
    · exact ⟨"HTTPError", by simp [requestAttempt, hb]⟩
    · simp [fetch_bitstamp_data, requestAttempt, hb]

/-- Witness for C6: a connection error yields the empty list. -/
theorem fetch_error_downgrade_witness :
    isErrorOutcome RequestResult.netError = true ∧
    ((∃ msg, requestAttempt RequestResult.netError = Except.error msg) ∧
      fetch_bitstamp_data RequestResult.netError = []) :=
  ⟨rfl, fetch_error_downgrade RequestResult.netError rfl⟩

/-- Counterexample to C6 as stated: status 304 is not 2xx, yet
`raise_for_status` does not raise for it, so `fetch_bitstamp_data`
returns the response body instead of the empty list. -/
theorem fetch_status_304_not_downgraded :
    ¬ (200 ≤ 304 ∧ 304 < 300) ∧
    fetch_bitstamp_data
        (RequestResult.response 304 [⟨"1", "2", "3", "4", "5", "6"⟩]) =
      [⟨"1", "2", "3", "4", "5", "6"⟩] := by
  exact ⟨by omega, rfl⟩

/-- When every chunk request yields zero rows, the existing (coerced)
dataset is returned unchanged by `fetch_and_append_missing_data`. -/
theorem fetch_and_append_all_empty (oracle : Int × Int → RequestResult)
    (missing_days : List Int) (df_existing : List Bar)
    (hz : ∀ c, fetch_bitstamp_data (oracle c) = []) :
    fetch_and_append_missing_data oracle missing_days df_existing = df_existing := by
  have hday : ∀ day, fetch_day oracle day = [] := by
    intro day
    unfold fetch_day
    simp [hz]
  unfold fetch_and_append_missing_data
  have hnil : (missing_days.filterMap (fun day =>
      if (fetch_day oracle day).isEmpty then none
      else some ((fetch_day oracle day).map normalize_row))) = [] := by
    rw [List.filterMap_eq_nil_iff]
    intro day _
    rw [hday day]
    rfl
  rw [hnil]
  rfl

/-- C7 (amended).  Write behaviour of a completed run: when missing days
are detected the dataset file is always written — in particular, if every
chunk request returns zero rows the existing (timestamp-coerced) dataset
is rewritten unchanged; but when no gap is detected the driver skips
`fetch_and_append_missing_data` entirely, so no fetch request is issued
and *no* write happens.  (As stated the claim is false: the rewrite is
not unconditional.) -/
theorem main_run_write_behavior (oracle : Int × Int → RequestResult)
    (df_existing : List Bar) (missing_days : List Int) :
    (missing_days = [] →
      main_run oracle df_existing missing_days = ⟨none, 0⟩) ∧
    (missing_days ≠ [] →
      (main_run oracle df_existing missing_days).written =
        some (fetch_and_append_missing_data oracle missing_days df_existing)) ∧
    (missing_days ≠ [] → (∀ c, fetch_bitstamp_data (oracle c) = []) →
      (main_run oracle df_existing missing_days).written = some df_existing) := by
  refine ⟨?_, ?_, ?_⟩
  · intro h
    subst h
    rfl
  · intro h
    unfold main_run
    rw [if_pos (List.length_pos.mpr h)]
  · intro h hz
    unfold main_run
    rw [if_pos (List.length_pos.mpr h)]
    simp only
    rw [fetch_and_append_all_empty oracle missing_days df_existing hz]

/-- Witness for C7: one missing day, every request answered with an empty
body; the existing dataset is written back unchanged. -/
theorem main_run_write_behavior_witness :
    ([(0 : Int)] ≠ []) ∧
    (main_run (fun _ => RequestResult.response 200 [])
        [⟨some 1, "o", "h", "l", "c", "v"⟩] [0]).written =
      some [⟨some 1, "o", "h", "l", "c", "v"⟩] :=
  ⟨by decide,
    (main_run_write_behavior (fun _ => RequestResult.response 200 [])
      [⟨some 1, "o", "h", "l", "c", "v"⟩] [0]).2.2 (by decide) (fun _ => rfl)⟩

/-- Counterexample to C7 as stated: a run that completes with no missing
days detected issues no request and writes nothing — the dataset file is
not rewritten. -/
theorem main_run_no_gap_no_write :
    main_run (fun _ => RequestResult.response 200 [])
      [⟨some 1, "o", "h", "l", "c", "v"⟩] [] = ⟨none, 0⟩ := rfl

/-- C9.  Normalization: every upstream row is mapped field-by-field from
the upstream names into the Bar schema `(Timestamp, Open, High, Low,
Close, Volume)`, and its timestamp is coerced to an integer by
`pd.to_numeric` (concretely, the digit string "1325317920" becomes the
integer 1325317920). -/
theorem normalize_row_schema (r : UpstreamRow) :
    (normalize_row r).Timestamp = to_numeric r.timestamp ∧
    (normalize_row r).Open = r.«open» ∧
    (normalize_row r).High = r.high ∧
    (normalize_row r).Low = r.low ∧
    (normalize_row r).Close = r.close ∧
    (normalize_row r).Volume = r.volume ∧
    to_numeric "1325317920" = some 1325317920 :=
  ⟨rfl, rfl, rfl, rfl, rfl, rfl, by decide⟩

/-- Witness for C10: two existing rows with NaN timestamps collapse to
the first one. -/
theorem merge_nan_rows_collapse_witness :
    (mergeData
        [⟨none, "a1", "a2", "a3", "a4", "a5"⟩,
          ⟨none, "b1", "b2", "b3", "b4", "b5"⟩,
          ⟨some 1, "c1", "c2", "c3", "c4", "c5"⟩]
        []).filter (fun x => decide (x.Timestamp = none)) =
      [⟨none, "a1", "a2", "a3", "a4", "a5"⟩] :=
  merge_nan_rows_collapse
    [⟨none, "a1", "a2", "a3", "a4", "a5"⟩,
      ⟨none, "b1", "b2", "b3", "b4", "b5"⟩,
      ⟨some 1, "c1", "c2", "c3", "c4", "c5"⟩]
    [] ⟨none, "a1", "a2", "a3", "a4", "a5"⟩ ⟨none, "b1", "b2", "b3", "b4", "b5"⟩
    [] (by decide)

end KaggleBitcoin
